import Mathlib

/-
Shallow embedding of the walk-app pipeline (src/streamlit_app.py):
boundary resolution (text geocoding / map click), WKT serialization used as
the cache key, the memoized amenity fetch, the category aggregation loop,
and the final merge with centroid columns.
-/

namespace WalkApp

/-- A planar (longitude, latitude) coordinate, as used by shapely geometries.
Coordinates are modelled as rationals. -/
structure Pt where
  x : ℚ
  y : ℚ
deriving DecidableEq, Repr

/-- A linear ring: the coordinate sequence of one polygon ring, stored as in
WKT (the closing point is part of the data, not an invariant). -/
abbrev Ring := List Pt

/-- A polygon: one exterior shell plus interior hole rings. -/
structure Poly where
  shell : Ring
  holes : List Ring
deriving DecidableEq, Repr

/-- A boundary or feature geometry.  `point`, `line`, `poly` and `multipoly`
correspond to shapely Point / LineString / Polygon / MultiPolygon.  `circle`
abstracts the result of `sg.Point(lon, lat).buffer(r)` (line 95 and 102 of the
source) by its exact center and radius, eliding the discretized ring the
library would produce.  `unionOf` abstracts `Perimeter.geometry.unary_union`
(line 91) applied to the list of administrative polygons. -/
inductive Geometry where
  | point (p : Pt)
  | line (pts : List Pt)
  | poly (p : Poly)
  | multipoly (ps : List Poly)
  | circle (center : Pt) (radius : ℚ)
  | unionOf (ps : List Poly)
deriving DecidableEq, Repr

/-- A lexical token of the WKT text encoding (`Boundary.wkt` at line 111,
`shapely.wkt.loads` at line 147): parentheses, the comma separator, numeric
literals, and the geometry-type keywords. -/
inductive Tok where
  | lp
  | rp
  | comma
  | num (q : ℚ)
  | kwPoint
  | kwLine
  | kwPolygon
  | kwMulti
  | kwCircle
  | kwUnion
deriving DecidableEq, Repr

/-- A comma-separated coordinate list, as inside a WKT ring. -/
def serPts : List Pt → List Tok
  | [] => []
  | [p] => [.num p.x, .num p.y]
  | p :: rest => .num p.x :: .num p.y :: .comma :: serPts rest

/-- A parenthesized coordinate list: one WKT ring. -/
def serRing (r : Ring) : List Tok :=
  .lp :: serPts r ++ [.rp]

/-- A comma-separated sequence of rings. -/
def serRingSeq : List Ring → List Tok
  | [] => []
  | [r] => serRing r
  | r :: rest => serRing r ++ .comma :: serRingSeq rest

/-- A WKT polygon body: shell ring then hole rings, parenthesized. -/
def serPoly (p : Poly) : List Tok :=
  .lp :: serRingSeq (p.shell :: p.holes) ++ [.rp]

/-- A comma-separated sequence of polygon bodies. -/
def serPolySeq : List Poly → List Tok
  | [] => []
  | [p] => serPoly p
  | p :: rest => serPoly p ++ .comma :: serPolySeq rest

/-- WKT-style serialization of a geometry: the keyword for its type followed
by its parenthesized coordinate structure.  This is the model of
`Boundary.wkt` (line 111 of the source). -/
def serialize : Geometry → List Tok
  | .point p => [.kwPoint, .lp, .num p.x, .num p.y, .rp]
  | .line pts => .kwLine :: serRing pts
  | .poly p => .kwPolygon :: serPoly p
  | .multipoly ps => .kwMulti :: .lp :: (serPolySeq ps ++ [.rp])
  | .circle c r => [.kwCircle, .lp, .num c.x, .num c.y, .num r, .rp]
  | .unionOf ps => .kwUnion :: .lp :: (serPolySeq ps ++ [.rp])

/-- Parse a nonempty comma-separated coordinate list. -/
def parsePts : List Tok → Option (List Pt × List Tok)
  | .num x :: .num y :: .comma :: rest =>
    match parsePts rest with
    | some (ps, rest2) => some (⟨x, y⟩ :: ps, rest2)
    | none => none
  | .num x :: .num y :: rest => some ([⟨x, y⟩], rest)
  | _ => none

/-- Parse one parenthesized ring (possibly with an empty coordinate list). -/
def parseRing : List Tok → Option (Ring × List Tok)
  | .lp :: .rp :: rest => some ([], rest)
  | .lp :: rest =>
    match parsePts rest with
    | some (ps, .rp :: rest2) => some (ps, rest2)
    | _ => none
  | _ => none

theorem parsePts_length_le :
    ∀ ts ps rest, parsePts ts = some (ps, rest) → rest.length ≤ ts.length := by
  intro ts
  induction ts using parsePts.induct with
  | case1 x y rest ps2 rest2 hrec ih =>
    intro ps r h
    simp only [parsePts, hrec] at h
    cases h
    have := ih _ _ hrec
    simp only [List.length_cons]
    omega
  | case2 x y rest hrec =>
    intro ps r h
    simp only [parsePts, hrec] at h
    exact absurd h (by simp)
  | case3 x y rest h1 =>
    intro ps r h
    simp only [parsePts] at h
    cases h
    simp only [List.length_cons]
    omega
  | case4 ts h1 h2 =>
    intro ps r h
    simp only [parsePts] at h
    exact absurd h (by simp)

theorem parseRing_length_lt (ts : List Tok) (r : Ring) (rest : List Tok)
    (h : parseRing ts = some (r, rest)) : rest.length < ts.length := by
  unfold parseRing at h
  split at h
  · cases h
    simp only [List.length_cons]
    omega
  · split at h
    · cases h
      rename_i rest0 ps rest2 hp
      have := parsePts_length_le _ _ _ hp
      simp only [List.length_cons] at this ⊢
      omega
    · exact absurd h (by simp)
  · exact absurd h (by simp)

/-- Parse a nonempty comma-separated sequence of rings. -/
def parseRingSeq (ts : List Tok) : Option (List Ring × List Tok) :=
  match h : parseRing ts with
  | some (r, .comma :: rest) =>
    match parseRingSeq rest with
    | some (rs, rest2) => some (r :: rs, rest2)
    | none => none
  | some (r, rest) => some ([r], rest)
  | none => none
termination_by ts.length
decreasing_by
  have := parseRing_length_lt ts _ _ h
  simp only [List.length_cons] at this
  omega

theorem parseRingSeq_length_le (ts : List Tok) (rs : List Ring) (rest : List Tok)
    (h : parseRingSeq ts = some (rs, rest)) : rest.length ≤ ts.length := by
  induction ts using parseRingSeq.induct generalizing rs rest with
  | case1 ts r rest0 hr rs2 rest2 hrec ih =>
    rw [parseRingSeq, hr] at h
    dsimp only at h
    rw [hrec] at h
    cases h
    have h1 := parseRing_length_lt ts _ _ hr
    have h2 := ih _ _ hrec
    simp only [List.length_cons] at h1
    omega
  | case2 ts r rest0 hr hrec =>
    rw [parseRingSeq, hr] at h
    dsimp only at h
    rw [hrec] at h
    exact absurd h (by simp)
  | case3 ts r rest0 hnc hr =>
    rw [parseRingSeq, hr] at h
    revert h
    match rest0 with
    | .comma :: rest1 => exact absurd rfl (by exact hnc rest1)
    | [] =>
      intro h
      dsimp only at h
      cases h
      have := parseRing_length_lt ts _ _ hr
      omega
    | .lp :: r1 | .rp :: r1 | .num q :: r1 | .kwPoint :: r1 | .kwLine :: r1
    | .kwPolygon :: r1 | .kwMulti :: r1 | .kwCircle :: r1 | .kwUnion :: r1 =>
      intro h
      dsimp only at h
      cases h
      have := parseRing_length_lt ts _ _ hr
      omega
  | case4 ts hr =>
    rw [parseRingSeq, hr] at h
    dsimp only at h
    exact absurd h (by simp)

/-- Parse one parenthesized WKT polygon body. -/
def parsePoly : List Tok → Option (Poly × List Tok)
  | .lp :: rest =>
    match parseRingSeq rest with
    | some (shell :: holes, .rp :: rest2) => some (⟨shell, holes⟩, rest2)
    | _ => none
  | _ => none

theorem parsePoly_length_lt (ts : List Tok) (p : Poly) (rest : List Tok)
    (h : parsePoly ts = some (p, rest)) : rest.length < ts.length := by
  unfold parsePoly at h
  split at h
  · split at h
    · cases h
      rename_i rest0 shell holes rest2 hseq
      have := parseRingSeq_length_le _ _ _ hseq
      simp only [List.length_cons] at this ⊢
      omega
    · exact absurd h (by simp)
  · exact absurd h (by simp)

/-- Parse a nonempty comma-separated sequence of polygon bodies. -/
def parsePolySeq (ts : List Tok) : Option (List Poly × List Tok) :=
  match h : parsePoly ts with
  | some (p, .comma :: rest) =>
    match parsePolySeq rest with
    | some (ps, rest2) => some (p :: ps, rest2)
    | none => none
  | some (p, rest) => some ([p], rest)
  | none => none
termination_by ts.length
decreasing_by
  have := parsePoly_length_lt ts _ _ h
  simp only [List.length_cons] at this
  omega

/-- Parse a parenthesized, possibly empty, sequence of polygon bodies. -/
def parsePolys : List Tok → Option (List Poly × List Tok)
  | .lp :: .rp :: rest => some ([], rest)
  | .lp :: rest =>
    match parsePolySeq rest with
    | some (ps, .rp :: rest2) => some (ps, rest2)
    | _ => none
  | _ => none

/-- Parse one serialized geometry, dispatching on the leading keyword. -/
def parseGeometry : List Tok → Option (Geometry × List Tok)
  | .kwPoint :: .lp :: .num x :: .num y :: .rp :: rest => some (.point ⟨x, y⟩, rest)
  | .kwLine :: rest =>
    match parseRing rest with
    | some (pts, rest2) => some (.line pts, rest2)
    | none => none
  | .kwPolygon :: rest =>
    match parsePoly rest with
    | some (p, rest2) => some (.poly p, rest2)
    | none => none
  | .kwMulti :: rest =>
    match parsePolys rest with
    | some (ps, rest2) => some (.multipoly ps, rest2)
    | none => none
  | .kwCircle :: .lp :: .num x :: .num y :: .num r :: .rp :: rest =>
    some (.circle ⟨x, y⟩ r, rest)
  | .kwUnion :: rest =>
    match parsePolys rest with
    | some (ps, rest2) => some (.unionOf ps, rest2)
    | none => none
  | _ => none

/-- WKT deserialization, the model of `shapely.wkt.loads` (line 147 of the
source): a full parse of the token stream, rejecting trailing garbage. -/
def deserialize (ts : List Tok) : Option Geometry :=
  match parseGeometry ts with
  | some (g, []) => some g
  | _ => none

theorem serPts_shape (p : Pt) (ps : List Pt) :
    ∃ t, serPts (p :: ps) = .num p.x :: .num p.y :: t := by
  cases ps with
  | nil => exact ⟨[], rfl⟩
  | cons q ps2 => exact ⟨.comma :: serPts (q :: ps2), rfl⟩

theorem parsePts_ser (ps : List Pt) (rest : List Tok) (hne : ps ≠ [])
    (hrest : ∀ ts, rest ≠ Tok.comma :: ts) :
    parsePts (serPts ps ++ rest) = some (ps, rest) := by
  induction ps with
  | nil => exact absurd rfl hne
  | cons p ps ih =>
    cases ps with
    | nil =>
      cases rest with
      | nil => simp [serPts, parsePts]
      | cons t r =>
        cases t
        case comma => exact absurd rfl (hrest r)
        all_goals simp [serPts, parsePts]
    | cons q ps2 =>
      have hih := ih (by simp)
      simp only [serPts, List.cons_append, parsePts, List.append_eq]
      rw [hih]

theorem parseRing_ser (r : Ring) (rest : List Tok) :
    parseRing (serRing r ++ rest) = some (r, rest) := by
  cases r with
  | nil => simp [serRing, serPts, parseRing]
  | cons p ps =>
    obtain ⟨t, ht⟩ := serPts_shape p ps
    have h2 : parsePts (serPts (p :: ps) ++ (.rp :: rest)) = some (p :: ps, .rp :: rest) :=
      parsePts_ser _ _ (by simp) (by intro ts hc; cases hc)
    have h1 : serRing (p :: ps) ++ rest
        = .lp :: .num p.x :: .num p.y :: (t ++ (.rp :: rest)) := by
      simp [serRing, ht]
    rw [h1]
    rw [ht] at h2
    simp only [List.cons_append] at h2
    simp [parseRing, h2]

theorem parseRingSeq_ser (rs : List Ring) (rest : List Tok) (hne : rs ≠ [])
    (hrest : ∀ ts, rest ≠ Tok.comma :: ts) :
    parseRingSeq (serRingSeq rs ++ rest) = some (rs, rest) := by
  induction rs with
  | nil => exact absurd rfl hne
  | cons r rs ih =>
    cases rs with
    | nil =>
      rw [show serRingSeq [r] ++ rest = serRing r ++ rest from rfl]
      rw [parseRingSeq, parseRing_ser]
      revert hrest
      match rest with
      | .comma :: rest1 => intro hrest; exact absurd rfl (hrest rest1)
      | [] => intro hrest; rfl
      | .lp :: r1 | .rp :: r1 | .num q :: r1 | .kwPoint :: r1 | .kwLine :: r1
      | .kwPolygon :: r1 | .kwMulti :: r1 | .kwCircle :: r1 | .kwUnion :: r1 =>
        intro hrest; rfl
    | cons r2 rs2 =>
      have hih := ih (by simp)
      have hshape : serRingSeq (r :: r2 :: rs2) ++ rest
          = serRing r ++ (.comma :: (serRingSeq (r2 :: rs2) ++ rest)) := by
        simp [serRingSeq]
      rw [hshape, parseRingSeq, parseRing_ser]
      dsimp only
      rw [hih]

theorem parsePoly_ser (p : Poly) (rest : List Tok) :
    parsePoly (serPoly p ++ rest) = some (p, rest) := by
  have hseq : parseRingSeq (serRingSeq (p.shell :: p.holes) ++ (.rp :: rest))
      = some (p.shell :: p.holes, .rp :: rest) :=
    parseRingSeq_ser _ _ (by simp) (by intro ts hc; cases hc)
  have hshape : serPoly p ++ rest
      = .lp :: (serRingSeq (p.shell :: p.holes) ++ (.rp :: rest)) := by
    simp [serPoly]
  rw [hshape]
  simp [parsePoly, hseq]

theorem serPoly_shape (p : Poly) : ∃ t, serPoly p = .lp :: t :=
  ⟨serRingSeq (p.shell :: p.holes) ++ [Tok.rp], rfl⟩

theorem parsePolySeq_ser (ps : List Poly) (rest : List Tok) (hne : ps ≠ [])
    (hrest : ∀ ts, rest ≠ Tok.comma :: ts) :
    parsePolySeq (serPolySeq ps ++ rest) = some (ps, rest) := by
  induction ps with
  | nil => exact absurd rfl hne
  | cons p ps ih =>
    cases ps with
    | nil =>
      rw [show serPolySeq [p] ++ rest = serPoly p ++ rest from rfl]
      rw [parsePolySeq, parsePoly_ser]
      revert hrest
      match rest with
      | .comma :: rest1 => intro hrest; exact absurd rfl (hrest rest1)
      | [] => intro hrest; rfl
      | .lp :: r1 | .rp :: r1 | .num q :: r1 | .kwPoint :: r1 | .kwLine :: r1
      | .kwPolygon :: r1 | .kwMulti :: r1 | .kwCircle :: r1 | .kwUnion :: r1 =>
        intro hrest; rfl
    | cons p2 ps2 =>
      have hih := ih (by simp)
      have hshape : serPolySeq (p :: p2 :: ps2) ++ rest
          = serPoly p ++ (.comma :: (serPolySeq (p2 :: ps2) ++ rest)) := by
        simp [serPolySeq]
      rw [hshape, parsePolySeq, parsePoly_ser]
      dsimp only
      rw [hih]

theorem serPolySeq_cons_shape (p : Poly) (ps : List Poly) :
    ∃ u, serPolySeq (p :: ps) = .lp :: u := by
  obtain ⟨t, ht⟩ := serPoly_shape p
  cases ps with
  | nil => exact ⟨t, ht⟩
  | cons p2 ps2 =>
    exact ⟨t ++ (.comma :: serPolySeq (p2 :: ps2)), by simp [serPolySeq, ht]⟩

theorem parsePolys_ser (ps : List Poly) (rest : List Tok) :
    parsePolys (.lp :: (serPolySeq ps ++ (.rp :: rest))) = some (ps, rest) := by
  cases ps with
  | nil => simp [serPolySeq, parsePolys]
  | cons p ps2 =>
    have hseq : parsePolySeq (serPolySeq (p :: ps2) ++ (.rp :: rest))
        = some (p :: ps2, .rp :: rest) :=
      parsePolySeq_ser _ _ (by simp) (by intro ts hc; cases hc)
    obtain ⟨u, hu⟩ := serPolySeq_cons_shape p ps2
    rw [hu] at hseq ⊢
    simp only [List.cons_append] at hseq ⊢
    simp [parsePolys, hseq]

theorem parseGeometry_ser (g : Geometry) (rest : List Tok) :
    parseGeometry (serialize g ++ rest) = some (g, rest) := by
  cases g with
  | point p => simp [serialize, parseGeometry]
  | line pts =>
    have h := parseRing_ser pts rest
    simp [serialize, parseGeometry, h]
  | poly p =>
    have h := parsePoly_ser p rest
    simp [serialize, parseGeometry, h]
  | multipoly ps =>
    have h := parsePolys_ser ps rest
    have hshape : serialize (.multipoly ps) ++ rest
        = .kwMulti :: .lp :: (serPolySeq ps ++ (.rp :: rest)) := by
      simp [serialize]
    rw [hshape]
    simp [parseGeometry, h]
  | circle c r => simp [serialize, parseGeometry]
  | unionOf ps =>
    have h := parsePolys_ser ps rest
    have hshape : serialize (.unionOf ps) ++ rest
        = .kwUnion :: .lp :: (serPolySeq ps ++ (.rp :: rest)) := by
      simp [serialize]
    rw [hshape]
    simp [parseGeometry, h]

theorem deserialize_serialize (g : Geometry) : deserialize (serialize g) = some g := by
  unfold deserialize
  have h := parseGeometry_ser g []
  rw [List.append_nil] at h
  rw [h]

/-- An advisory status surfaced in the sidebar: `st.sidebar.success`,
`st.sidebar.warning`, `st.sidebar.info`, `st.sidebar.write`. -/
inductive Status where
  | success (msg : String)
  | warning (msg : String)
  | info (msg : String)
deriving DecidableEq, Repr

/-- A tag filter, the `tags` dictionary passed to OSMnx.  The configuration
uses exactly three shapes: a key with a list of allowed values, a key whose
mere presence qualifies (`True`), and a key with one required value. -/
inductive TagFilter where
  | valueList (key : String) (values : List String)
  | presence (key : String)
  | value (key : String) (v : String)
deriving DecidableEq, Repr

/-- One fetched feature.  The pipeline reads only its geometry; other
upstream attribute columns are never consulted. -/
structure Feature where
  geom : Geometry
deriving DecidableEq, Repr

/-- The default address prefilled in the text input (line 33 of the source). -/
def default_address : String := "San Francisco, CA"

/-- The default map-center coordinate (line 60 of the source), stored here as
(x = longitude, y = latitude); the source stores it as `[lat, lon]`. -/
def default_location : Pt := ⟨-122.4194, 37.7749⟩

/-- The buffer radius used for fallback circular boundaries (lines 95 and
102 of the source). -/
def bufferRadius : ℚ := 0.01

/-- A location request: the sidebar text input, or a map click carrying the
last clicked (lat, lng) if any. -/
inductive LocationQuery where
  | textInput (address : String)
  | mapClick (clicked : Option (ℚ × ℚ))
deriving DecidableEq, Repr

/-- Text-input resolution (lines 46 to 53 of the source): on geocoding
success the first geometry becomes the boundary; on any exception a warning
and the error text are emitted and the boundary stays `None`. -/
def resolveText (address : String) (geocode : Except String Geometry) :
    Option Geometry × List Status :=
  match geocode with
  | .ok g => (some g, [.success ("Location found: " ++ address)])
  | .error e =>
    (none, [.warning "Failed to geocode the address. Try refining your input.",
            .info ("Error: " ++ e)])

/-- Map-click resolution for a clicked point (lines 82 to 102 of the source):
a nonempty administrative lookup is merged by `unary_union`; an empty lookup
or an exception falls back to a buffer of radius 0.01 around (lon, lat). -/
def resolvePoint (lat lon : ℚ) (lookup : Except String (List Poly)) :
    Geometry × List Status :=
  match lookup with
  | .ok ps =>
    if ps.isEmpty then
      (.circle ⟨lon, lat⟩ bufferRadius,
       [.warning "No administrative boundary found. Using a circular buffer (~1km) instead."])
    else
      (.unionOf ps, [.success "Boundary found for clicked point"])
  | .error e =>
    (.circle ⟨lon, lat⟩ bufferRadius,
     [.warning "Failed to find an administrative boundary.", .info ("Error: " ++ e)])

/-- Full location selection (lines 39 to 104 of the source), parameterized by
the two external collaborators: the geocoder and the administrative-boundary
lookup. -/
def resolveLocation (q : LocationQuery)
    (geocode : String → Except String Geometry)
    (lookup : ℚ → ℚ → Except String (List Poly)) : Option Geometry × List Status :=
  match q with
  | .textInput addr => resolveText addr (geocode addr)
  | .mapClick none => (none, [.info "Click on the map to select a location."])
  | .mapClick (some (lat, lon)) =>
    let r := resolvePoint lat lon (lookup lat lon)
    (some r.1, r.2)

/-- Outcome of the boundary guard (lines 106 to 111 of the source): with no
boundary the script stops (`st.stop`); otherwise it is serialized to WKT and
the pipeline proceeds. -/
inductive GuardResult where
  | halted
  | proceed (bw : List Tok)
deriving DecidableEq, Repr

/-- The `if Boundary is None: st.stop()` guard followed by `Boundary.wkt`. -/
def boundaryGuard : Option Geometry → GuardResult
  | none => .halted
  | some g => .proceed (serialize g)

/-- A memo-table key of `@st.cache_data` on `fetch_amenities`: the argument
pair (serialized boundary, tags). -/
abbrev CacheKey := List Tok × TagFilter

/-- The process-lifetime memo table of `@st.cache_data`. -/
abbrev Cache := List (CacheKey × List Feature)

/-- Lookup in the memo table. -/
def lookupCache (c : Cache) (k : CacheKey) : Option (List Feature) :=
  match c with
  | [] => none
  | (k2, v) :: rest => if k2 = k then some v else lookupCache rest k

/-- The upstream feature source `ox.features_from_polygon`, abstracted as a
function from (deserialized boundary, tags) to a feature list or an error. -/
abbrev Upstream := Geometry → TagFilter → Except String (List Feature)

/-- Result of one `fetch_amenities` call: its return value, the memo table
after the call, how many upstream queries it issued, and the advisory
statuses it emitted. -/
structure FetchOut where
  result : List Feature
  cache : Cache
  upstreamCalls : Nat
  warnings : List Status
deriving Repr

/-- The memoized fetch (lines 141 to 151 of the source).  On a memo hit the
stored value is returned without touching the upstream source.  On a miss the
WKT is deserialized and the upstream source queried; any failure is caught,
a warning emitted, and the empty collection returned.  The returned value —
failure or not — is what `@st.cache_data` stores for this key. -/
def fetch_amenities (u : Upstream) (cache : Cache) (bw : List Tok)
    (tags : TagFilter) : FetchOut :=
  match lookupCache cache (bw, tags) with
  | some v => ⟨v, cache, 0, []⟩
  | none =>
    match deserialize bw with
    | none =>
      ⟨[], ((bw, tags), []) :: cache, 0,
       [.warning "Failed to fetch amenities: WKT parse error"]⟩
    | some b =>
      match u b tags with
      | .ok fs => ⟨fs, ((bw, tags), fs) :: cache, 1, []⟩
      | .error e =>
        ⟨[], ((bw, tags), []) :: cache, 1,
         [.warning ("Failed to fetch amenities: " ++ e)]⟩

/-- The configured amenity categories, in sidebar order (lines 116 to 122 of
the source). -/
def amenity_categories : List (String × TagFilter) :=
  [("Entertainment", .valueList "amenity" ["arts_centre", "cinema", "nightclub", "theatre"]),
   ("Civic", .valueList "amenity" ["courthouse", "fire_station", "post_office"]),
   ("Historic", .presence "historic"),
   ("Tourism", .presence "tourism"),
   ("FB (Food & Beverage)", .valueList "amenity" ["cafe", "restaurant", "pub"])]

/-- The three options of the specific-amenity selectbox (lines 132 to 135 of
the source). -/
inductive SpecificAmenity where
  | transitStations
  | libraries
  | restaurants
deriving DecidableEq, Repr

/-- Display name of a specific-amenity option. -/
def specificName : SpecificAmenity → String
  | .transitStations => "Transit Stations"
  | .libraries => "Libraries"
  | .restaurants => "Restaurants"

/-- Tag filter of a specific-amenity option (lines 165 to 170 of the source). -/
def specificTags : SpecificAmenity → TagFilter
  | .transitStations => .value "amenity" "bus_station"
  | .libraries => .value "amenity" "library"
  | .restaurants => .value "amenity" "restaurant"

/-- A feature carrying the category label assigned by
`amenities['category'] = category` (lines 161 and 174 of the source). -/
structure LabeledFeature where
  category : String
  geom : Geometry
deriving DecidableEq, Repr

/-- Label every feature of a fetch result with a category name. -/
def label (name : String) (fs : List Feature) : List LabeledFeature :=
  fs.map (fun f => ⟨name, f.geom⟩)

/-- State after the category loop: the list of appended per-category frames
(`filtered_amenities`), the memo table, the number of upstream queries made,
and the warnings emitted. -/
structure LoopOut where
  groups : List (List LabeledFeature)
  cache : Cache
  upstreamCalls : Nat
  warnings : List Status
deriving Repr

/-- The category loop (lines 156 to 162 of the source): fetch each selected
category in order, label nonempty results, and append them; empty results are
skipped. -/
def categoryLoop (u : Upstream) (bw : List Tok) (cats : List (String × TagFilter))
    (cache : Cache) : LoopOut :=
  match cats with
  | [] => ⟨[], cache, 0, []⟩
  | (name, tags) :: rest =>
    let fo := fetch_amenities u cache bw tags
    let lo := categoryLoop u bw rest fo.cache
    ⟨if fo.result.isEmpty then lo.groups else label name fo.result :: lo.groups,
     lo.cache, fo.upstreamCalls + lo.upstreamCalls, fo.warnings ++ lo.warnings⟩

/-- Twice the signed area of a ring (shoelace over consecutive vertex pairs). -/
def ringCross (r : Ring) : ℚ :=
  ((r.zip r.tail).map (fun pq => pq.1.x * pq.2.y - pq.2.x * pq.1.y)).sum

/-- Numerator terms of the x moment of a ring. -/
def ringCxNum (r : Ring) : ℚ :=
  ((r.zip r.tail).map
    (fun pq => (pq.1.x + pq.2.x) * (pq.1.x * pq.2.y - pq.2.x * pq.1.y))).sum

/-- Numerator terms of the y moment of a ring. -/
def ringCyNum (r : Ring) : ℚ :=
  ((r.zip r.tail).map
    (fun pq => (pq.1.y + pq.2.y) * (pq.1.x * pq.2.y - pq.2.x * pq.1.y))).sum

/-- Area-weighted centroid of a list of rings, the standard polygon-centroid
formula (signed contributions; holes are stored with opposite orientation). -/
def ringsCentroid (rings : List Ring) : Pt :=
  let a2 := (rings.map ringCross).sum
  ⟨(rings.map ringCxNum).sum / (3 * a2), (rings.map ringCyNum).sum / (3 * a2)⟩

/-- Geometric centroid of a polygon with its holes. -/
def polyCentroid (p : Poly) : Pt :=
  ringsCentroid (p.shell :: p.holes)

/-- Geometric centroid of a multi-polygon. -/
def multiCentroid (ps : List Poly) : Pt :=
  ringsCentroid (ps.map Poly.shell ++ (ps.map Poly.holes).flatten)

/-- Squared Euclidean distance between two coordinates. -/
def sqDist (p q : Pt) : ℚ := (q.x - p.x) ^ 2 + (q.y - p.y) ^ 2

/-- Length-weighted centroid of a line's vertex sequence for a given
segment-length assignment: each segment contributes its midpoint weighted by
its length, divided by the total length — the geometry library's LineString
centroid formula. -/
def weightedLineCentroid (pts : List Pt) (len : Pt → Pt → ℚ) : Pt :=
  let segs := pts.zip pts.tail
  let total := (segs.map (fun pq => len pq.1 pq.2)).sum
  ⟨(segs.map (fun pq => (pq.1.x + pq.2.x) / 2 * len pq.1 pq.2)).sum / total,
   (segs.map (fun pq => (pq.1.y + pq.2.y) / 2 * len pq.1 pq.2)).sum / total⟩

/-- Segment length in the rational model: the rational square root of the
squared distance.  It equals the Euclidean length √(Δx² + Δy²) exactly when
that length is rational (`segLen_of_sq`) — the only case a
rational-coordinate model can express exactly. -/
def segLen (p q : Pt) : ℚ := Rat.sqrt (sqDist p q)

/-- The geometric centroid of a line: the length-weighted average of its
segment midpoints, the formula the geometry library uses for a LineString,
with segment lengths taken in the rational model. -/
def lineCentroid (pts : List Pt) : Pt := weightedLineCentroid pts segLen

/-- The representative coordinate `geometry.centroid` (lines 182 and 183 of
the source), computed by the external geometry library: a point is its own
centroid; polygons and multi-polygons use the exact area-weighted formula; a
line uses the length-weighted midpoint formula with the model's exact
rational segment lengths; a circle's centroid is its center. -/
def centroid : Geometry → Pt
  | .point p => p
  | .line pts => lineCentroid pts
  | .poly p => polyCentroid p
  | .multipoly ps => multiCentroid ps
  | .circle c _ => c
  | .unionOf ps => multiCentroid ps

theorem segLen_of_sq (p q : Pt) (l : ℚ) (h0 : 0 ≤ l) (hsq : l ^ 2 = sqDist p q) :
    segLen p q = l := by
  unfold segLen
  rw [← hsq, pow_two, Rat.sqrt_eq, abs_of_nonneg h0]

theorem lineCentroid_length_weighted (pts : List Pt) (len : Pt → Pt → ℚ)
    (hlen : ∀ pq ∈ pts.zip pts.tail,
      0 ≤ len pq.1 pq.2 ∧ (len pq.1 pq.2) ^ 2 = sqDist pq.1 pq.2) :
    lineCentroid pts = weightedLineCentroid pts len := by
  have hseg : ∀ pq ∈ pts.zip pts.tail, segLen pq.1 pq.2 = len pq.1 pq.2 := by
    intro pq hpq
    obtain ⟨h0, hsq⟩ := hlen pq hpq
    exact segLen_of_sq pq.1 pq.2 _ h0 hsq
  unfold lineCentroid weightedLineCentroid
  dsimp only
  have hx : (pts.zip pts.tail).map (fun pq => (pq.1.x + pq.2.x) / 2 * segLen pq.1 pq.2)
      = (pts.zip pts.tail).map (fun pq => (pq.1.x + pq.2.x) / 2 * len pq.1 pq.2) :=
    List.map_congr_left fun pq hpq => by rw [hseg pq hpq]
  have hy : (pts.zip pts.tail).map (fun pq => (pq.1.y + pq.2.y) / 2 * segLen pq.1 pq.2)
      = (pts.zip pts.tail).map (fun pq => (pq.1.y + pq.2.y) / 2 * len pq.1 pq.2) :=
    List.map_congr_left fun pq hpq => by rw [hseg pq hpq]
  have hl : (pts.zip pts.tail).map (fun pq => segLen pq.1 pq.2)
      = (pts.zip pts.tail).map (fun pq => len pq.1 pq.2) :=
    List.map_congr_left fun pq hpq => hseg pq hpq
  rw [hx, hy, hl]

theorem lineCentroid_rational_segment :
    lineCentroid [⟨0, 0⟩, ⟨3, 4⟩] = ⟨3 / 2, 2⟩ := by
  have h5 : segLen (⟨0, 0⟩ : Pt) ⟨3, 4⟩ = 5 :=
    segLen_of_sq _ _ 5 (by norm_num) (by norm_num [sqDist])
  simp [lineCentroid, weightedLineCentroid, h5]
  norm_num

/-- One row of the merged `all_amenities` frame: the columns the pipeline
produces and reads (category, geometry, x, y). -/
structure OutRow where
  category : String
  geom : Geometry
  x : ℚ
  y : ℚ
deriving DecidableEq, Repr

/-- Build the output row of one labeled feature, attaching the centroid
coordinates (lines 182 and 183 of the source). -/
def mkRow (lf : LabeledFeature) : OutRow :=
  ⟨lf.category, lf.geom, (centroid lf.geom).x, (centroid lf.geom).y⟩

/-- The merged frame: its column names and its rows. -/
structure DataTable where
  cols : List String
  rows : List OutRow
deriving DecidableEq, Repr

/-- The merge step (lines 179 to 187 of the source): with no accumulated
frames, an explicitly empty frame with columns x and y; otherwise the
concatenation of all frames with centroid columns x and y attached. -/
def mergeAmenities (groups : List (List LabeledFeature)) : DataTable :=
  if groups.isEmpty then
    ⟨["x", "y"], []⟩
  else
    ⟨["geometry", "category", "x", "y"], groups.flatten.map mkRow⟩

/-- Result of the full fetch-and-aggregate stage. -/
structure PipelineOut where
  table : DataTable
  cache : Cache
  upstreamCalls : Nat
  warnings : List Status
deriving Repr

/-- The fetch-and-aggregate stage (lines 156 to 187 of the source): the
category loop, then the specific-amenity fetch appended last when nonempty,
then the merge. -/
def runPipeline (u : Upstream) (bw : List Tok) (cats : List (String × TagFilter))
    (sa : SpecificAmenity) (cache : Cache) : PipelineOut :=
  let lo := categoryLoop u bw cats cache
  let fo := fetch_amenities u lo.cache bw (specificTags sa)
  let groups :=
    if fo.result.isEmpty then lo.groups
    else lo.groups ++ [label (specificName sa) fo.result]
  ⟨mergeAmenities groups, fo.cache, lo.upstreamCalls + fo.upstreamCalls,
   lo.warnings ++ fo.warnings⟩

/-- Result of one upstream interaction ignoring the cache: what a fetch
returns when its key is not memoized (deserialize, query, absorb failure). -/
def directFetch (u : Upstream) (bw : List Tok) (tags : TagFilter) : List Feature :=
  match deserialize bw with
  | none => []
  | some b =>
    match u b tags with
    | .ok fs => fs
    | .error _ => []

/-- Declarative contribution of one category: its labeled fetch result, or
nothing when the fetch is empty. -/
def contribution (u : Upstream) (bw : List Tok) (c : String × TagFilter) :
    Option (List LabeledFeature) :=
  let r := directFetch u bw c.2
  if r.isEmpty then none else some (label c.1 r)

theorem fetch_caches_result (u : Upstream) (cache : Cache) (bw : List Tok)
    (tags : TagFilter) :
    lookupCache (fetch_amenities u cache bw tags).cache (bw, tags)
      = some (fetch_amenities u cache bw tags).result := by
  unfold fetch_amenities
  split
  · rename_i v hv
    exact hv
  · split
    · simp [lookupCache]
    · split
      · simp [lookupCache]
      · simp [lookupCache]

theorem fetch_hit (u : Upstream) (cache : Cache) (bw : List Tok) (tags : TagFilter)
    (v : List Feature) (h : lookupCache cache (bw, tags) = some v) :
    fetch_amenities u cache bw tags = ⟨v, cache, 0, []⟩ := by
  unfold fetch_amenities
  rw [h]

theorem fetch_miss (u : Upstream) (cache : Cache) (bw : List Tok) (tags : TagFilter)
    (h : lookupCache cache (bw, tags) = none) :
    (fetch_amenities u cache bw tags).result = directFetch u bw tags ∧
    (fetch_amenities u cache bw tags).cache
      = ((bw, tags), directFetch u bw tags) :: cache ∧
    (fetch_amenities u cache bw tags).upstreamCalls ≤ 1 := by
  unfold fetch_amenities directFetch
  rw [h]
  dsimp only
  split
  · simp
  · split
    · simp
    · simp

theorem fetch_calls_le_one (u : Upstream) (cache : Cache) (bw : List Tok)
    (tags : TagFilter) : (fetch_amenities u cache bw tags).upstreamCalls ≤ 1 := by
  unfold fetch_amenities
  split
  · simp
  · split
    · simp
    · split
      · simp
      · simp

theorem lookupCache_cons (k1 : CacheKey) (v : List Feature) (c : Cache)
    (k : CacheKey) :
    lookupCache ((k1, v) :: c) k = if k1 = k then some v else lookupCache c k := rfl

theorem categoryLoop_normal (u : Upstream) (bw : List Tok)
    (cats : List (String × TagFilter)) (cache : Cache)
    (hc : ∀ t ∈ cats.map Prod.snd, lookupCache cache (bw, t) = none)
    (hd : (cats.map Prod.snd).Pairwise (fun a b => a ≠ b)) :
    (categoryLoop u bw cats cache).groups = cats.filterMap (contribution u bw) ∧
    ∀ t, t ∉ cats.map Prod.snd →
      lookupCache (categoryLoop u bw cats cache).cache (bw, t)
        = lookupCache cache (bw, t) := by
  induction cats generalizing cache with
  | nil =>
    refine ⟨rfl, ?_⟩
    intro t ht
    rfl
  | cons c rest ih =>
    obtain ⟨name, tags⟩ := c
    have h1 : lookupCache cache (bw, tags) = none := hc tags (by simp)
    obtain ⟨hres, hcache, hcalls⟩ := fetch_miss u cache bw tags h1
    simp only [List.map_cons, List.pairwise_cons] at hd
    obtain ⟨hhead, htail⟩ := hd
    have hc' : ∀ t ∈ rest.map Prod.snd,
        lookupCache (fetch_amenities u cache bw tags).cache (bw, t) = none := by
      intro t ht
      rw [hcache, lookupCache_cons, if_neg, hc t (by simp [ht])]
      intro hk
      exact hhead t ht (congrArg Prod.snd hk)
    obtain ⟨ihg, ihc⟩ := ih (fetch_amenities u cache bw tags).cache hc' htail
    constructor
    · simp only [categoryLoop, List.filterMap_cons]
      rw [hres, ihg]
      unfold contribution
      split
      · rename_i hcon
        dsimp only
        rw [if_pos hcon]
      · rename_i hcon
        dsimp only
        rw [if_neg hcon]
    · intro t ht
      simp only [List.map_cons, List.mem_cons, not_or] at ht
      obtain ⟨ht1, ht2⟩ := ht
      have hproj : (categoryLoop u bw ((name, tags) :: rest) cache).cache
          = (categoryLoop u bw rest (fetch_amenities u cache bw tags).cache).cache := rfl
      rw [hproj, ihc t ht2, hcache, lookupCache_cons, if_neg]
      intro hk
      exact ht1 (congrArg Prod.snd hk).symm

theorem mergeAmenities_rows (gs : List (List LabeledFeature)) :
    (mergeAmenities gs).rows = gs.flatten.map mkRow := by
  unfold mergeAmenities
  split
  · rename_i hemp
    rw [List.isEmpty_iff] at hemp
    subst hemp
    rfl
  · rfl

theorem runPipeline_rows_normal (u : Upstream) (bw : List Tok)
    (cats : List (String × TagFilter)) (sa : SpecificAmenity)
    (hd : (cats.map Prod.snd ++ [specificTags sa]).Pairwise (fun a b => a ≠ b)) :
    (runPipeline u bw cats sa []).table.rows
      = ((cats.filterMap (contribution u bw)) ++
          (contribution u bw (specificName sa, specificTags sa)).toList).flatten.map
            mkRow := by
  rw [List.pairwise_append] at hd
  obtain ⟨hdl, _, hcross⟩ := hd
  have hnotin : specificTags sa ∉ cats.map Prod.snd := by
    intro hmem
    exact hcross (specificTags sa) hmem (specificTags sa) (by simp) rfl
  have hc : ∀ t ∈ cats.map Prod.snd, lookupCache [] (bw, t) = none := by
    intro t ht
    rfl
  obtain ⟨hg, hpres⟩ := categoryLoop_normal u bw cats [] hc hdl
  have hspec : lookupCache (categoryLoop u bw cats []).cache (bw, specificTags sa)
      = none := by
    rw [hpres (specificTags sa) hnotin]
    rfl
  obtain ⟨hres, hcache2, hcalls2⟩ :=
    fetch_miss u (categoryLoop u bw cats []).cache bw (specificTags sa) hspec
  have hproj : (runPipeline u bw cats sa []).table
      = mergeAmenities
          (if (fetch_amenities u (categoryLoop u bw cats []).cache bw
                (specificTags sa)).result.isEmpty then
            (categoryLoop u bw cats []).groups
          else
            (categoryLoop u bw cats []).groups ++
              [label (specificName sa)
                (fetch_amenities u (categoryLoop u bw cats []).cache bw
                  (specificTags sa)).result]) := rfl
  rw [hproj, mergeAmenities_rows, hres, hg]
  unfold contribution
  dsimp only
  split
  · simp
  · simp [Option.toList]

/-- Rotation of a list by n positions. -/
def rotateList (n : Nat) (l : List Pt) : List Pt := l.drop n ++ l.take n

/-- Closedness of a ring as stored: nonempty and first vertex equals last. -/
def isClosedRing (r : Ring) : Bool :=
  match r with
  | [] => false
  | p :: _ => decide (r.getLast? = some p)

/-- Equality of two closed rings as vertex cycles: dropping the duplicated
closing vertex, one is a rotation of the other.  Two such rings trace the
same curve with the same orientation. -/
def ringCycleEq (r1 r2 : Ring) : Bool :=
  (List.range r1.dropLast.length).any
    (fun n => decide (rotateList n r1.dropLast = r2.dropLast))

/-- Geometric equality of boundary geometries, as a sufficient decidable
fragment of the geometry library's `equals`: syntactic equality always
implies it, and for polygons a rotation of the closed exterior ring — which
leaves vertices and ring orientation unchanged — also does. -/
def geomEq : Geometry → Geometry → Bool
  | .poly p1, .poly p2 =>
    decide (p1 = p2) ||
      (isClosedRing p1.shell && isClosedRing p2.shell &&
        ringCycleEq p1.shell p2.shell && decide (p1.holes = p2.holes))
  | g1, g2 => decide (g1 = g2)

/-- First boundary of the cache counterexample: a triangle whose closed shell
ring starts at (0, 0). -/
def C3b1 : Geometry := .poly ⟨[⟨0, 0⟩, ⟨4, 0⟩, ⟨0, 4⟩, ⟨0, 0⟩], []⟩

/-- Second boundary of the cache counterexample: the same triangle with the
shell ring started at (4, 0). -/
def C3b2 : Geometry := .poly ⟨[⟨4, 0⟩, ⟨0, 4⟩, ⟨0, 0⟩, ⟨4, 0⟩], []⟩

/-- A tag filter used by concrete instantiations. -/
def C3tags : TagFilter := .value "amenity" "restaurant"

/-- An upstream source that always answers with no features. -/
def C3u : Upstream := fun _ _ => .ok []

theorem C3_serialize_ne : serialize C3b1 ≠ serialize C3b2 := by decide

theorem C3_first_call : fetch_amenities C3u [] (serialize C3b1) C3tags
    = ⟨[], [((serialize C3b1, C3tags), [])], 1, []⟩ := by
  unfold fetch_amenities
  rw [deserialize_serialize]
  rfl

theorem C3_second_call :
    fetch_amenities C3u [((serialize C3b1, C3tags), [])] (serialize C3b2) C3tags
      = ⟨[], [((serialize C3b2, C3tags), []), ((serialize C3b1, C3tags), [])],
          1, []⟩ := by
  unfold fetch_amenities
  have hl : lookupCache [((serialize C3b1, C3tags), [])] (serialize C3b2, C3tags)
      = none := by
    rw [lookupCache_cons, if_neg]
    · rfl
    · simp [C3_serialize_ne]
  rw [hl, deserialize_serialize]
  rfl

/-- C1 counterexample: for an address whose geocoding fails, resolution does
not return a circular fallback boundary centered on the default coordinate —
it yields no boundary at all, and the boundary guard then halts the pipeline
(`st.stop`), contradicting the claim that a boundary is always present before
any fetch. -/
theorem C1_text_fallback_counterexample :
    (resolveText default_address (.error "service error")).1 = none ∧
    (resolveText default_address (.error "service error")).1
      ≠ some (.circle default_location bufferRadius) ∧
    boundaryGuard (resolveText default_address (.error "service error")).1
      = .halted := by
  refine ⟨rfl, by simp [resolveText], rfl⟩

/-- C1 amended: for every address whose geocoding fails, resolution does not
raise: it emits a warning, yields no boundary (no fallback region is built
for the text strategy), and the boundary guard halts the pipeline cleanly
before any fetch. -/
theorem C1_text_failure_amended (addr e : String) :
    (resolveText addr (.error e)).1 = none ∧
    Status.warning "Failed to geocode the address. Try refining your input."
      ∈ (resolveText addr (.error e)).2 ∧
    boundaryGuard (resolveText addr (.error e)).1 = .halted := by
  refine ⟨rfl, by simp [resolveText], rfl⟩

/-- C2: serialization round trip — deserializing the serialization of any
boundary geometry (polygon, multi-polygon, buffered circle, or any other
constructor) returns exactly the same geometry, so in particular the same
vertices and the same ring orientation. -/
theorem C2_serialize_roundtrip (g : Geometry) :
    deserialize (serialize g) = some g :=
  deserialize_serialize g

/-- C3 counterexample: two geometrically equal but distinct boundaries — the
same triangle with its closed shell ring started at two different vertices —
serialize to different WKT, so two fetch calls with them and the same filter
each contact the upstream source: two upstream queries, not at most one. -/
theorem C3_cache_counterexample :
    geomEq C3b1 C3b2 = true ∧ C3b1 ≠ C3b2 ∧
    (fetch_amenities C3u [] (serialize C3b1) C3tags).upstreamCalls +
      (fetch_amenities C3u (fetch_amenities C3u [] (serialize C3b1) C3tags).cache
        (serialize C3b2) C3tags).upstreamCalls = 2 := by
  refine ⟨by decide, by decide, ?_⟩
  rw [C3_first_call]
  rw [show (⟨[], [((serialize C3b1, C3tags), [])], 1, []⟩ : FetchOut).cache
      = [((serialize C3b1, C3tags), [])] from rfl]
  rw [C3_second_call]
  rfl

/-- C3 amended: the memo key is the serialized boundary, so for every pair of
fetch calls whose boundaries have equal serializations and the same filter,
the first call makes at most one upstream query and the second returns the
cached collection without contacting the upstream source at all. -/
theorem C3_cache_amended (u1 u2 : Upstream) (cache : Cache) (b1 b2 : Geometry)
    (tags : TagFilter) (hser : serialize b1 = serialize b2) :
    (fetch_amenities u1 cache (serialize b1) tags).upstreamCalls ≤ 1 ∧
    fetch_amenities u2 (fetch_amenities u1 cache (serialize b1) tags).cache
        (serialize b2) tags
      = ⟨(fetch_amenities u1 cache (serialize b1) tags).result,
         (fetch_amenities u1 cache (serialize b1) tags).cache, 0, []⟩ := by
  refine ⟨fetch_calls_le_one u1 cache (serialize b1) tags, ?_⟩
  rw [← hser]
  exact fetch_hit u2 _ _ _ _ (fetch_caches_result u1 cache (serialize b1) tags)

/-- C3 witness: the amended cache theorem applied at a concrete boundary,
filter and upstream source. -/
theorem C3_cache_amended_witness :
    serialize C3b1 = serialize C3b1 ∧
    ((fetch_amenities C3u [] (serialize C3b1) C3tags).upstreamCalls ≤ 1 ∧
     fetch_amenities C3u (fetch_amenities C3u [] (serialize C3b1) C3tags).cache
         (serialize C3b1) C3tags
       = ⟨(fetch_amenities C3u [] (serialize C3b1) C3tags).result,
          (fetch_amenities C3u [] (serialize C3b1) C3tags).cache, 0, []⟩) :=
  ⟨rfl, C3_cache_amended C3u C3u [] C3b1 C3b1 C3tags rfl⟩

/-- C4: for every clicked point whose administrative lookup returns no
polygons or fails outright, resolution returns the circular buffer of radius
0.01 centered on (lon, lat) and emits a warning. -/
theorem C4_point_fallback (lat lon : ℚ) (lookup : Except String (List Poly))
    (h : lookup = .ok [] ∨ ∃ e, lookup = .error e) :
    (resolvePoint lat lon lookup).1 = .circle ⟨lon, lat⟩ bufferRadius ∧
    ∃ m, Status.warning m ∈ (resolvePoint lat lon lookup).2 := by
  rcases h with h | ⟨e, h⟩ <;> subst h
  · exact ⟨rfl,
      ⟨"No administrative boundary found. Using a circular buffer (~1km) instead.",
       by simp [resolvePoint]⟩⟩
  · exact ⟨rfl, ⟨"Failed to find an administrative boundary.",
       by simp [resolvePoint]⟩⟩

/-- C4 witness: the point-fallback theorem applied at a concrete clicked
point with an empty administrative lookup. -/
theorem C4_point_fallback_witness :
    ((Except.ok [] : Except String (List Poly)) = .ok [] ∨
      ∃ e, (Except.ok [] : Except String (List Poly)) = .error e) ∧
    ((resolvePoint 37 (-122) (.ok [])).1 = .circle ⟨-122, 37⟩ bufferRadius ∧
     ∃ m, Status.warning m ∈ (resolvePoint 37 (-122) (.ok [])).2) :=
  ⟨Or.inl rfl, C4_point_fallback 37 (-122) (.ok []) (Or.inl rfl)⟩

/-- C8: for every clicked point whose administrative lookup returns one or
more polygons, resolution returns the geometric union of all of them as the
single boundary. -/
theorem C8_point_union (lat lon : ℚ) (ps : List Poly) (hne : ps ≠ []) :
    (resolvePoint lat lon (.ok ps)).1 = .unionOf ps := by
  simp [resolvePoint, List.isEmpty_iff, hne]

/-- C8 witness: the point-union theorem applied at a concrete clicked point
with one administrative polygon returned. -/
theorem C8_point_union_witness :
    ([(⟨[⟨0, 0⟩], []⟩ : Poly)] : List Poly) ≠ [] ∧
    (resolvePoint 1 2 (.ok [⟨[⟨0, 0⟩], []⟩])).1 = .unionOf [⟨[⟨0, 0⟩], []⟩] :=
  ⟨by simp, C8_point_union 1 2 [⟨[⟨0, 0⟩], []⟩] (by simp)⟩

/-- C10: an upstream failure is caught inside the memoized fetch and the
resulting empty collection is cached under its key; every later call with the
same key — under any upstream source, even one that would now succeed —
returns the cached empty collection and makes no upstream query. -/
theorem C10_failure_cached (u1 u2 : Upstream) (b : Geometry) (tags : TagFilter)
    (e : String) (hfail : u1 b tags = .error e) :
    (fetch_amenities u1 [] (serialize b) tags).result = [] ∧
    (fetch_amenities u1 [] (serialize b) tags).upstreamCalls = 1 ∧
    fetch_amenities u2 (fetch_amenities u1 [] (serialize b) tags).cache
        (serialize b) tags
      = ⟨[], (fetch_amenities u1 [] (serialize b) tags).cache, 0, []⟩ := by
  have hf1 : fetch_amenities u1 [] (serialize b) tags
      = ⟨[], [((serialize b, tags), [])], 1,
         [.warning ("Failed to fetch amenities: " ++ e)]⟩ := by
    unfold fetch_amenities
    rw [deserialize_serialize]
    dsimp only [lookupCache]
    rw [hfail]
  refine ⟨by rw [hf1], by rw [hf1], ?_⟩
  apply fetch_hit
  rw [hf1]
  simp [lookupCache]

/-- The concretely failing upstream source of the C10 witness. -/
def C10u1 : Upstream := fun _ _ => .error "timeout"

/-- The concretely succeeding upstream source of the C10 witness. -/
def C10u2 : Upstream := fun _ _ => .ok [⟨.point ⟨1, 2⟩⟩]

/-- C10 witness: the failure-caching theorem applied at a concrete boundary,
filter, a transiently failing source, and a later succeeding source. -/
theorem C10_failure_cached_witness :
    C10u1 (Geometry.point ⟨0, 0⟩) C3tags = .error "timeout" ∧
    ((fetch_amenities C10u1 [] (serialize (Geometry.point ⟨0, 0⟩)) C3tags).result
        = [] ∧
     (fetch_amenities C10u1 [] (serialize (Geometry.point ⟨0, 0⟩))
        C3tags).upstreamCalls = 1 ∧
     fetch_amenities C10u2
         (fetch_amenities C10u1 [] (serialize (Geometry.point ⟨0, 0⟩)) C3tags).cache
         (serialize (Geometry.point ⟨0, 0⟩)) C3tags
       = ⟨[], (fetch_amenities C10u1 [] (serialize (Geometry.point ⟨0, 0⟩))
            C3tags).cache, 0, []⟩) :=
  ⟨rfl, C10_failure_cached C10u1 C10u2 (.point ⟨0, 0⟩) C3tags "timeout" rfl⟩

/-- C6: with zero selected categories and a specific-amenity fetch that
yields no features, the merged result is the explicitly empty frame: zero
rows, with the columns x and y present. -/
theorem C6_empty_aggregate (u : Upstream) (b : Geometry) (sa : SpecificAmenity)
    (hempty : directFetch u (serialize b) (specificTags sa) = []) :
    (runPipeline u (serialize b) [] sa []).table = ⟨["x", "y"], []⟩ ∧
    (runPipeline u (serialize b) [] sa []).table.rows.length = 0 ∧
    "x" ∈ (runPipeline u (serialize b) [] sa []).table.cols ∧
    "y" ∈ (runPipeline u (serialize b) [] sa []).table.cols := by
  obtain ⟨hres, hcache, hcalls⟩ := fetch_miss u [] (serialize b) (specificTags sa) rfl
  have htab : (runPipeline u (serialize b) [] sa []).table
      = mergeAmenities
          (if (fetch_amenities u [] (serialize b) (specificTags sa)).result.isEmpty
           then []
           else [] ++ [label (specificName sa)
             (fetch_amenities u [] (serialize b) (specificTags sa)).result]) := rfl
  rw [htab, hres, hempty]
  exact ⟨rfl, rfl, by simp [mergeAmenities], by simp [mergeAmenities]⟩

/-- C6 witness: the empty-aggregate theorem applied at a concrete boundary
with an upstream source returning no features. -/
theorem C6_empty_aggregate_witness :
    directFetch C3u (serialize (Geometry.point ⟨0, 0⟩))
      (specificTags .restaurants) = [] ∧
    ((runPipeline C3u (serialize (Geometry.point ⟨0, 0⟩)) [] .restaurants
        []).table = ⟨["x", "y"], []⟩ ∧
     (runPipeline C3u (serialize (Geometry.point ⟨0, 0⟩)) [] .restaurants
        []).table.rows.length = 0 ∧
     "x" ∈ (runPipeline C3u (serialize (Geometry.point ⟨0, 0⟩)) [] .restaurants
        []).table.cols ∧
     "y" ∈ (runPipeline C3u (serialize (Geometry.point ⟨0, 0⟩)) [] .restaurants
        []).table.cols) := by
  have hemp : directFetch C3u (serialize (Geometry.point ⟨0, 0⟩))
      (specificTags .restaurants) = [] := by
    unfold directFetch
    rw [deserialize_serialize]
    rfl
  exact ⟨hemp, C6_empty_aggregate C3u (.point ⟨0, 0⟩) .restaurants hemp⟩

/-- C7: the aggregated rows are, in order, each selected category's labeled
features in selection order with empty fetches skipped, followed by the
specific-amenity result labeled with its name, each row carrying its centroid
coordinates. -/
theorem C7_aggregate_order (u : Upstream) (bw : List Tok)
    (cats : List (String × TagFilter)) (sa : SpecificAmenity)
    (hd : (cats.map Prod.snd ++ [specificTags sa]).Pairwise (fun a b => a ≠ b)) :
    (runPipeline u bw cats sa []).table.rows
      = ((cats.filterMap (contribution u bw)) ++
          (contribution u bw (specificName sa, specificTags sa)).toList).flatten.map
            mkRow :=
  runPipeline_rows_normal u bw cats sa hd

/-- C7 witness: the ordering theorem applied to the full configured category
list and the Restaurants specific filter. -/
theorem C7_aggregate_order_witness :
    (amenity_categories.map Prod.snd ++
        [specificTags .restaurants]).Pairwise (fun a b => a ≠ b) ∧
    (runPipeline C3u [] amenity_categories .restaurants []).table.rows
      = ((amenity_categories.filterMap (contribution C3u [])) ++
          (contribution C3u []
            (specificName .restaurants, specificTags .restaurants)).toList).flatten.map
            mkRow := by
  have hd : (amenity_categories.map Prod.snd ++
      [specificTags .restaurants]).Pairwise (fun a b => a ≠ b) := by decide
  exact ⟨hd, C7_aggregate_order C3u [] amenity_categories .restaurants hd⟩

/-- C5: an upstream failure for one tag filter makes that fetch return the
empty collection with a warning, and leaves every other category's
contribution to the loop exactly what it is under a source without that
failure — the loop itself runs to completion. -/
theorem C5_fetch_failure_isolated (u u2 : Upstream) (b : Geometry)
    (t0 : TagFilter) (e : String) (cats : List (String × TagFilter))
    (hd : (cats.map Prod.snd).Pairwise (fun a b => a ≠ b))
    (hagree : ∀ g t, t ≠ t0 → u2 g t = u g t)
    (hfail : u2 b t0 = .error e) :
    (fetch_amenities u2 [] (serialize b) t0).result = [] ∧
    Status.warning ("Failed to fetch amenities: " ++ e)
      ∈ (fetch_amenities u2 [] (serialize b) t0).warnings ∧
    (categoryLoop u2 (serialize b) cats []).groups
      = cats.filterMap (fun c =>
          if c.2 = t0 then none else contribution u (serialize b) c) := by
  have hdf0 : directFetch u2 (serialize b) t0 = [] := by
    unfold directFetch
    rw [deserialize_serialize]
    dsimp only
    rw [hfail]
  have hf : fetch_amenities u2 [] (serialize b) t0
      = ⟨[], [((serialize b, t0), [])], 1,
         [.warning ("Failed to fetch amenities: " ++ e)]⟩ := by
    unfold fetch_amenities
    rw [deserialize_serialize]
    dsimp only [lookupCache]
    rw [hfail]
  refine ⟨by rw [hf], by rw [hf]; simp, ?_⟩
  obtain ⟨hg, _⟩ := categoryLoop_normal u2 (serialize b) cats []
    (fun t ht => rfl) hd
  rw [hg]
  apply List.filterMap_congr
  intro c hc
  by_cases hct : c.2 = t0
  · rw [if_pos hct]
    simp [contribution, hct, hdf0]
  · rw [if_neg hct]
    have hsame : directFetch u2 (serialize b) c.2
        = directFetch u (serialize b) c.2 := by
      unfold directFetch
      rw [deserialize_serialize]
      dsimp only
      rw [hagree b c.2 hct]
    simp [contribution, hsame]

/-- An upstream source answering one point feature for every query, used by
the C5 witness. -/
def C5u : Upstream := fun _ _ => .ok [⟨.point ⟨1, 1⟩⟩]

/-- The tag filter of the Historic category, the one the C5 witness fails. -/
def C5t0 : TagFilter := .presence "historic"

/-- The C5 witness upstream: like C5u except that the Historic filter errors. -/
def C5u2 : Upstream := fun g t => if t = C5t0 then .error "boom" else C5u g t

/-- C5 witness: the failure-isolation theorem applied to the configured
category list with the Historic category failing. -/
theorem C5_fetch_failure_isolated_witness :
    ((amenity_categories.map Prod.snd).Pairwise (fun a b => a ≠ b) ∧
     (∀ g t, t ≠ C5t0 → C5u2 g t = C5u g t) ∧
     C5u2 (Geometry.point ⟨0, 0⟩) C5t0 = .error "boom") ∧
    ((fetch_amenities C5u2 [] (serialize (Geometry.point ⟨0, 0⟩)) C5t0).result
        = [] ∧
     Status.warning ("Failed to fetch amenities: " ++ "boom")
       ∈ (fetch_amenities C5u2 [] (serialize (Geometry.point ⟨0, 0⟩))
            C5t0).warnings ∧
     (categoryLoop C5u2 (serialize (Geometry.point ⟨0, 0⟩)) amenity_categories
        []).groups
       = amenity_categories.filterMap (fun c =>
           if c.2 = C5t0 then none
           else contribution C5u (serialize (Geometry.point ⟨0, 0⟩)) c)) := by
  have hd : (amenity_categories.map Prod.snd).Pairwise (fun a b => a ≠ b) := by
    decide
  have hagree : ∀ g t, t ≠ C5t0 → C5u2 g t = C5u g t := by
    intro g t ht
    simp [C5u2, ht]
  have hfail : C5u2 (Geometry.point ⟨0, 0⟩) C5t0 = .error "boom" := by
    simp [C5u2]
  exact ⟨⟨hd, hagree, hfail⟩,
    C5_fetch_failure_isolated C5u C5u2 (.point ⟨0, 0⟩) C5t0 "boom"
      amenity_categories hd hagree hfail⟩

/-- C9: every row of the aggregated output carries as its (x, y) the centroid
of its feature's geometry: for a point-geometry feature that is exactly the
point's own coordinates; for a line-geometry feature whose true Euclidean
segment lengths are rational (given as any assignment whose square is the
squared distance) it is the length-weighted geometric centroid computed from
those true lengths; for a polygon-geometry feature it is the polygon's
geometric centroid. -/
theorem C9_representative_point (u : Upstream) (bw : List Tok)
    (cats : List (String × TagFilter)) (sa : SpecificAmenity) (cache : Cache)
    (row : OutRow) (hrow : row ∈ (runPipeline u bw cats sa cache).table.rows) :
    (∀ p, row.geom = .point p → row.x = p.x ∧ row.y = p.y) ∧
    (∀ pts len, row.geom = .line pts →
      (∀ pq ∈ pts.zip pts.tail,
        0 ≤ len pq.1 pq.2 ∧ (len pq.1 pq.2) ^ 2 = sqDist pq.1 pq.2) →
      row.x = (weightedLineCentroid pts len).x ∧
      row.y = (weightedLineCentroid pts len).y) ∧
    (∀ pl, row.geom = .poly pl → row.x = (polyCentroid pl).x ∧
      row.y = (polyCentroid pl).y) := by
  have htab : (runPipeline u bw cats sa cache).table
      = mergeAmenities
          (if (fetch_amenities u (categoryLoop u bw cats cache).cache bw
                (specificTags sa)).result.isEmpty then
            (categoryLoop u bw cats cache).groups
          else
            (categoryLoop u bw cats cache).groups ++
              [label (specificName sa)
                (fetch_amenities u (categoryLoop u bw cats cache).cache bw
                  (specificTags sa)).result]) := rfl
  rw [htab, mergeAmenities_rows] at hrow
  obtain ⟨lf, hlf, rfl⟩ := List.mem_map.mp hrow
  refine ⟨?_, ?_, ?_⟩
  · intro p hp
    have hg : lf.geom = .point p := hp
    constructor
    · show (centroid lf.geom).x = p.x
      rw [hg]
      rfl
    · show (centroid lf.geom).y = p.y
      rw [hg]
      rfl
  · intro pts len hp hlen
    have hg : lf.geom = .line pts := hp
    have hlc : lineCentroid pts = weightedLineCentroid pts len :=
      lineCentroid_length_weighted pts len hlen
    constructor
    · show (centroid lf.geom).x = (weightedLineCentroid pts len).x
      rw [hg, show centroid (.line pts) = lineCentroid pts from rfl, hlc]
    · show (centroid lf.geom).y = (weightedLineCentroid pts len).y
      rw [hg, show centroid (.line pts) = lineCentroid pts from rfl, hlc]
  · intro pl hp
    have hg : lf.geom = .poly pl := hp
    constructor
    · show (centroid lf.geom).x = (polyCentroid pl).x
      rw [hg]
      rfl
    · show (centroid lf.geom).y = (polyCentroid pl).y
      rw [hg]
      rfl

/-- The boundary geometry used by the C9 witness. -/
def C9b : Geometry := .point ⟨0, 0⟩

/-- An upstream source answering one point feature at (5, 7). -/
def C9u : Upstream := fun _ _ => .ok [⟨.point ⟨5, 7⟩⟩]

/-- The output row the C9 witness exhibits. -/
def C9row : OutRow := ⟨"Restaurants", .point ⟨5, 7⟩, 5, 7⟩

/-- C9 witness: the centroid theorem applied to a concrete pipeline run whose
single output row is a point feature. -/
theorem C9_representative_point_witness :
    C9row ∈ (runPipeline C9u (serialize C9b) [] .restaurants []).table.rows ∧
    ((∀ p, C9row.geom = .point p → C9row.x = p.x ∧ C9row.y = p.y) ∧
     (∀ pts len, C9row.geom = .line pts →
        (∀ pq ∈ pts.zip pts.tail,
          0 ≤ len pq.1 pq.2 ∧ (len pq.1 pq.2) ^ 2 = sqDist pq.1 pq.2) →
        C9row.x = (weightedLineCentroid pts len).x ∧
        C9row.y = (weightedLineCentroid pts len).y) ∧
     (∀ pl, C9row.geom = .poly pl → C9row.x = (polyCentroid pl).x ∧
        C9row.y = (polyCentroid pl).y)) := by
  have hdf : directFetch C9u (serialize C9b) (specificTags .restaurants)
      = [⟨.point ⟨5, 7⟩⟩] := by
    unfold directFetch
    rw [deserialize_serialize]
    rfl
  have hmem : C9row
      ∈ (runPipeline C9u (serialize C9b) [] .restaurants []).table.rows := by
    rw [runPipeline_rows_normal C9u (serialize C9b) [] .restaurants (by simp)]
    simp [contribution, hdf, label, mkRow, centroid, C9row, specificName]
  exact ⟨hmem,
    C9_representative_point C9u (serialize C9b) [] .restaurants [] C9row hmem⟩
